import Mathlib

/-!
Shallow embedding of the dropconvert-wasm conversion core, translated from the
repository sources:

* `src/hooks/useFFmpeg.ts` (first document of `src/unnamed/part_007`): the
  execution watchdog `execWithHardTimeout`, the engine `load` function, the
  throttled progress publisher, and the `convertImage` pipeline with its GIF
  fallback ladder;
* `src/hooks/useBatchConversion.ts` (`src/unnamed/part_008`): `processItem`,
  `processQueue`, `removeItem`;
* `src/lib/queue/conversionQueue.ts`: `ConversionQueue.clearCompleted`,
  `ConversionQueue.remove`, `getItem`;
* `src/lib/ffmpeg/cacheManager.ts`: `getCachedAssets`;
* `src/lib/ffmpeg/errors.ts`: `isLikelyWasmAbort`, `isFfmpegNotLoadedError`;
* `src/lib/ffmpeg/utils.ts`: `clamp01`, `normalizeFfmpegTimeToSeconds`.

Asynchronous engine behaviour (the result of each `ffmpeg.exec` call, whether
the written output file is non-empty, and whether an engine reload succeeds)
is modelled by explicit oracles: `beh : Nat → ExecOutcome` gives the outcome
of the n-th exec call of a conversion, and `rb : Nat → Option String` gives
the outcome of the n-th recovery reload (`none` = the reload succeeded,
`some msg` = `load()` rejected with message `msg`).  JavaScript numbers that
hold device-memory hints, progress fractions and durations are modelled as
rationals; `NaN`/`undefined` readings are modelled as `Option` values.
-/

namespace DropConvert

/-! ### String helpers

JavaScript string tests (`String.prototype.includes`, regexp suffix tests and
`toLowerCase`) are modelled on the character lists underlying `String`. -/

/-- Does the first list start with the second one? (models an anchored match) -/
def listBeginsWith : List Char → List Char → Bool
  | _, [] => true
  | [], _ :: _ => false
  | a :: s, b :: t => a = b && listBeginsWith s t

/-- Does the list contain the second list as a contiguous segment?
(models JavaScript `String.prototype.includes`) -/
def listHasSeg : List Char → List Char → Bool
  | [], t => t.isEmpty
  | a :: s, t => listBeginsWith (a :: s) t || listHasSeg s t

/-- Does string `s` contain string `t`? (JavaScript `s.includes(t)`) -/
def strHasSeg (s t : String) : Bool := listHasSeg s.data t.data

/-- Does string `s` end with string `t`? (models a `/...$/` regexp test) -/
def strEndsWith (s t : String) : Bool :=
  listBeginsWith s.data.reverse t.data.reverse

/-- ASCII lower-casing of a string (JavaScript `toLowerCase` on the ASCII
messages the error classifiers are applied to). -/
def strLower (s : String) : String := String.mk (s.data.map Char.toLower)

/-! ### `src/lib/ffmpeg/errors.ts` -/

/-- From `errors.ts`: `isLikelyWasmAbort(message)`. -/
def isLikelyWasmAbort (message : String) : Bool :=
  let m := strLower message
  strHasSeg m "aborted()" || strHasSeg m "abort(" || strHasSeg m "out of memory" ||
    strHasSeg m "oom" || (strHasSeg m "memory" && strHasSeg m "wasm")

/-- From `errors.ts`: `isFfmpegNotLoadedError(message)`. -/
def isFfmpegNotLoadedError (message : String) : Bool :=
  strHasSeg (strLower message) "ffmpeg is not loaded"

/-- Engine error taxonomy of `useFFmpeg.ts` (`EngineErrorCode`). -/
inductive EngineErrorCode where
  | downloadTimeout
  | initTimeout
  | execTimeout
  | wasmAbort
  | notLoaded
  | workerTerminated
  | unknown
deriving DecidableEq, Repr

/-- Classification applied by `convertImage`'s outer catch block
(`useFFmpeg.ts` lines 1525-1553): a message ending in
"Worker was terminated." is classified `exec-timeout`, then the
not-loaded and wasm-abort signatures, anything else `unknown`. -/
def classifyConvertError (m : String) : EngineErrorCode :=
  if strEndsWith m "Worker was terminated." then .execTimeout
  else if isFfmpegNotLoadedError m then .notLoaded
  else if isLikelyWasmAbort m then .wasmAbort
  else .unknown

/-! ### Execution watchdog (`execWithHardTimeout`, `useFFmpeg.ts` 230-339)

The watchdog races the wrapped exec promise against a hard timer.  The timer
callback sets the `killed` flag and calls `terminateAndReset()`; a poller
rejects the race with the stuck error once `killed` is set.  The exec promise
is wrapped in a `.catch` that converts post-kill rejections into exit code 1,
and after the race a final `killed` check rethrows the stuck error.  A
scenario records when (and how) the exec promise settles relative to the
timer, plus which racer wins when both could. -/

/-- Timing scenario for one watchdog-guarded exec call. -/
inductive ExecScenario where
  /-- The exec promise settles before the hard timer fires. -/
  | settlesBefore (outcome : Except String Nat)
  /-- The hard timer fires first; the exec promise settles later.
  `pollWins` says whether the kill poller or the late settlement wins the race. -/
  | settlesAfter (outcome : Except String Nat) (pollWins : Bool)
  /-- The exec promise never settles. -/
  | neverSettles
deriving Repr

/-- The stuck error message built in `execWithHardTimeout`. -/
def stuckMsg (label : String) : String :=
  "FFmpeg appears stuck during " ++ label ++ ". Worker was terminated."

/-- Result of a watchdog call: the settled value of the race (after the
post-race `killed` check) and the number of `terminateAndReset()` calls. -/
structure WatchdogOut where
  result : Except String Nat
  terminations : Nat
deriving Repr

/-- The `Promise.race` of the wrapped exec promise and the kill poller.
The `.catch` wrapper returns exit code 1 for a rejection observed after the
kill flag was set, and rethrows otherwise. -/
def raceResult (label : String) (killed : Bool) (o : Except String Nat)
    (pollWins : Bool) : Except String Nat :=
  if killed && pollWins then .error (stuckMsg label)
  else
    match o with
    | .ok code => .ok code
    | .error m => if killed then .ok 1 else .error m

/-- The check after the race: an exit code obtained after the worker was
killed is converted into the stuck error. -/
def postRaceCheck (label : String) (killed : Bool) :
    Except String Nat → Except String Nat
  | .error m => .error m
  | .ok code => if killed then .error (stuckMsg label) else .ok code

/-- Model of `execWithHardTimeout` over a timing scenario.  When the timer
fires first, its callback sets `killed` and performs exactly one
`terminateAndReset()` (the cleared timer never re-fires). -/
def execWithHardTimeout (label : String) : ExecScenario → WatchdogOut
  | .settlesBefore o => ⟨postRaceCheck label false (raceResult label false o false), 0⟩
  | .settlesAfter o pollWins => ⟨postRaceCheck label true (raceResult label true o pollWins), 1⟩
  | .neverSettles => ⟨postRaceCheck label true (.error (stuckMsg label)), 1⟩

/-! ### Progress normalization (`useFFmpeg.ts` 361-373 and 485-563,
`utils.ts` `clamp01` / `normalizeFfmpegTimeToSeconds`) -/

/-- From `utils.ts`: `clamp01`. -/
def clamp01 (x : ℚ) : ℚ := max 0 (min 1 x)

/-- From `utils.ts`: `normalizeFfmpegTimeToSeconds`.  `none` models a
non-finite (`NaN`/missing) time value. -/
def normalizeFfmpegTimeToSeconds : Option ℚ → ℚ
  | none => 0
  | some t =>
    if t ≤ 0 then 0
    else if 10000000 < t then t / 1000000
    else if 10000 < t then t / 1000
    else t

/-- The fraction computed by the `progress` event handler (`useFFmpeg.ts`
490-506): the explicit fractional channel and the time-derived channel are
combined with `max` where both are finite, and the result is clamped to 0..1.
`none` inputs model `NaN`. -/
def progressChannelNext (progressVal : Option ℚ) (timeVal : Option ℚ)
    (target : Option ℚ) : ℚ :=
  let byTime : Option ℚ :=
    match target with
    | none => none
    | some tg =>
      if tg ≤ 0 then none
      else
        let s := normalizeFfmpegTimeToSeconds timeVal
        if 0 < s then some (s / tg) else none
  clamp01 (match progressVal, byTime with
    | some bp, some bt => max bp bt
    | some bp, none => bp
    | none, some bt => bt
    | none, none => 0)

/-- The fraction computed by the `log` event handler (`useFFmpeg.ts` 548-556)
from a parsed `time=` token; `none` when no fraction is published. -/
def logChannelNext (parsedSeconds : Option ℚ) (target : Option ℚ) : Option ℚ :=
  match target with
  | none => none
  | some tg =>
    if tg ≤ 0 then none
    else
      match parsedSeconds with
      | none => none
      | some s => some (clamp01 (s / tg))

/-- State of the throttled progress publisher: the currently published signal
value and the pending (not yet flushed) value. -/
structure ProgState where
  published : ℚ
  pending : Option ℚ
deriving DecidableEq, Repr

/-- Events of the publisher: a newly computed fraction handed to
`setProgressThrottled`, or an animation-frame flush. -/
inductive ProgEvent where
  | compute (x : ℚ)
  | flush
deriving DecidableEq, Repr

/-- From `useFFmpeg.ts` 361-364: `setProgressThrottled` clamps the value and
merges it into the pending slot with `Math.max`. -/
def setProgressThrottled (st : ProgState) (x : ℚ) : ProgState :=
  let c := clamp01 x
  { st with pending := some (match st.pending with | none => c | some p => max p c) }

/-- From `useFFmpeg.ts` 366-372: the animation-frame callback publishes
`setProgress(p => Math.max(p, value))` and clears the pending slot. -/
def flushProgress (st : ProgState) : ProgState :=
  match st.pending with
  | none => st
  | some v => ⟨max st.published v, none⟩

/-- One publisher step. -/
def progStep (st : ProgState) : ProgEvent → ProgState
  | .compute x => setProgressThrottled st x
  | .flush => flushProgress st

/-- Run the publisher over a sequence of events. -/
def runProg (st : ProgState) (evs : List ProgEvent) : ProgState :=
  evs.foldl progStep st

/-! ### Engine lifecycle `load()` (`useFFmpeg.ts` 399-697)

The loader state mirrors `ffmpegRef?.loaded`, `loadPromiseRef`,
`didAttachListenersRef` and counts executions of the load body (cache check /
download / `ffmpeg.load`).  The body's outcome is a parameter.  On failure the
catch block calls `terminateAndReset()` (clearing the instance and the
listener flag) and the finally block clears `loadPromiseRef`. -/

/-- Outcome of one execution of the load body. -/
inductive LoadOutcome where
  | success
  | failure (msg : String)
deriving DecidableEq, Repr

/-- Loader state. -/
structure EngineSt where
  loaded : Bool
  inFlight : Bool
  listenersAttached : Bool
  bodyRuns : Nat
deriving DecidableEq, Repr

/-- How a `load()` call returned. -/
inductive LoadRes where
  /-- `ffmpegRef?.loaded` was true: immediate return. -/
  | alreadyLoaded
  /-- `loadPromiseRef` was set: the caller awaited the in-flight promise. -/
  | awaitedInFlight
  /-- The call executed the load body itself. -/
  | fresh (out : LoadOutcome)
deriving DecidableEq, Repr

/-- Effect of executing the load body once (`useFFmpeg.ts` 441-693). -/
def loadBody (st : EngineSt) : LoadOutcome → EngineSt
  | .success => ⟨true, false, true, st.bodyRuns + 1⟩
  | .failure _ => ⟨false, false, false, st.bodyRuns + 1⟩

/-- Model of one `load()` call (`useFFmpeg.ts` 399-432 entry checks plus the
body).  SharedArrayBuffer support is assumed (the unsupported branch returns
without loading and is outside the claims). -/
def loadCall (st : EngineSt) (out : LoadOutcome) : LoadRes × EngineSt :=
  if st.loaded then (.alreadyLoaded, st)
  else if st.inFlight then (.awaitedInFlight, st)
  else (.fresh out, loadBody st out)

/-! ### GIF fallback ladder (`convertImage`, `useFFmpeg.ts` 1192-1416) -/

/-- Outcome of one `ffmpeg.exec` call inside a conversion: either the exec
promise resolves with an exit code (`nonEmpty` records whether the attempt's
output file is non-empty afterwards), or it rejects/throws with a message
(for example the watchdog's stuck error). -/
inductive ExecOutcome where
  | ret (code : Nat) (nonEmpty : Bool)
  | err (msg : String)
deriving DecidableEq, Repr

/-- Exit-code post-processing shared by `runMp4`/`runGif`/`runGifSingleFrame`:
on a non-zero exit code the attempt still counts as success (code 0) when
`tryReadNonEmptyFile` finds a non-empty output. -/
def gifExitOf (code : Nat) (nonEmpty : Bool) : Nat :=
  if code = 0 then 0 else if nonEmpty then 0 else code

/-- Result of one attempt as the ladder sees it: the post-processed exit code,
or the thrown message. -/
def runStep (beh : Nat → ExecOutcome) (k : Nat) : Except String Nat :=
  match beh k with
  | .ret code nonEmpty => .ok (gifExitOf code nonEmpty)
  | .err msg => .error msg

/-- The recoverable-failure test of the ladder's catch block (`useFFmpeg.ts`
1396-1400): worker terminated by the watchdog, engine not loaded, or a
wasm-abort signature. -/
def recoverableGifError (m : String) : Bool :=
  strEndsWith m "Worker was terminated." || isFfmpegNotLoadedError m || isLikelyWasmAbort m

/-- Mode of a GIF attempt. -/
inductive GifMode where
  | palette
  | nopalette
  | singleFrame
deriving DecidableEq, Repr

/-- One executed GIF attempt: its resolution ceiling, its mode, and the value
of the reload counter when it started. -/
structure Att where
  maxSide : Nat
  mode : GifMode
  reloadsBefore : Nat
deriving DecidableEq, Repr

/-- The configuration of an attempt (what command it runs). -/
def attConfig (a : Att) : Nat × GifMode := (a.maxSide, a.mode)

/-- A cost measure on attempts: higher resolution costs more, and at a fixed
resolution the palette attempt costs more than the no-palette attempt. -/
def weightAtt (a : Att) : Nat :=
  2 * a.maxSide + (if a.mode = GifMode.palette then 1 else 0)

/-- The message of the error recorded after a rung fails with a plain
non-zero exit code (`useFFmpeg.ts` 1385). -/
def exitCodeMsg (c : Nat) : String :=
  "FFmpeg returned exit code " ++ toString c ++ "."

/-- Outcome of the rung loop (`useFFmpeg.ts` 1368-1406). -/
structure LoopOut where
  exitCode : Nat
  trace : List Att
  execs : Nat
  reloads : Nat
  aborted : Option String
  lastErr : Option String
deriving Repr

/-- The `for` loop over `maxSideCandidates`.  Parameters: remaining
candidates, next exec index `k`, reload counter `r`, current `exitCodeGif`
value `ec`, current `lastGifError` value `le`.  Each rung runs the palette
attempt first when `ap && 720 ≤ maxSide`, retries without palette on a
non-zero exit, breaks on success, breaks at the minimum size 480, and on a
thrown error either reloads and continues (recoverable) or breaks
(anything else).  A reload failure propagates (`aborted`). -/
def gifRungLoop (beh : Nat → ExecOutcome) (rb : Nat → Option String) (ap : Bool) :
    List Nat → Nat → Nat → Nat → Option String → LoopOut
  | [], k, r, ec, le => ⟨ec, [], k, r, none, le⟩
  | maxSide :: rest, k, r, ec, le =>
    if ap && decide (720 ≤ maxSide) then
      match beh k with
      | .err m =>
        if recoverableGifError m then
          match rb r with
          | none =>
            let out := gifRungLoop beh rb ap rest (k + 1) (r + 1) ec (some m)
            { out with trace := ⟨maxSide, .palette, r⟩ :: out.trace }
          | some am => ⟨ec, [⟨maxSide, .palette, r⟩], k + 1, r + 1, some am, some m⟩
        else ⟨ec, [⟨maxSide, .palette, r⟩], k + 1, r, none, some m⟩
      | .ret c ne =>
        if gifExitOf c ne = 0 then ⟨0, [⟨maxSide, .palette, r⟩], k + 1, r, none, le⟩
        else
          match beh (k + 1) with
          | .err m =>
            if recoverableGifError m then
              match rb r with
              | none =>
                let out := gifRungLoop beh rb ap rest (k + 2) (r + 1) (gifExitOf c ne) (some m)
                { out with
                    trace := ⟨maxSide, .palette, r⟩ :: ⟨maxSide, .nopalette, r⟩ :: out.trace }
              | some am =>
                ⟨gifExitOf c ne, [⟨maxSide, .palette, r⟩, ⟨maxSide, .nopalette, r⟩],
                  k + 2, r + 1, some am, some m⟩
            else
              ⟨gifExitOf c ne, [⟨maxSide, .palette, r⟩, ⟨maxSide, .nopalette, r⟩],
                k + 2, r, none, some m⟩
          | .ret c2 ne2 =>
            if gifExitOf c2 ne2 = 0 then
              ⟨0, [⟨maxSide, .palette, r⟩, ⟨maxSide, .nopalette, r⟩], k + 2, r, none, le⟩
            else if maxSide ≤ 480 then
              ⟨gifExitOf c2 ne2, [⟨maxSide, .palette, r⟩, ⟨maxSide, .nopalette, r⟩],
                k + 2, r, none, some (exitCodeMsg (gifExitOf c2 ne2))⟩
            else
              let out := gifRungLoop beh rb ap rest (k + 2) r (gifExitOf c2 ne2)
                  (some (exitCodeMsg (gifExitOf c2 ne2)))
              { out with
                  trace := ⟨maxSide, .palette, r⟩ :: ⟨maxSide, .nopalette, r⟩ :: out.trace }
    else
      match beh k with
      | .err m =>
        if recoverableGifError m then
          match rb r with
          | none =>
            let out := gifRungLoop beh rb ap rest (k + 1) (r + 1) ec (some m)
            { out with trace := ⟨maxSide, .nopalette, r⟩ :: out.trace }
          | some am => ⟨ec, [⟨maxSide, .nopalette, r⟩], k + 1, r + 1, some am, some m⟩
        else ⟨ec, [⟨maxSide, .nopalette, r⟩], k + 1, r, none, some m⟩
      | .ret c ne =>
        if gifExitOf c ne = 0 then ⟨0, [⟨maxSide, .nopalette, r⟩], k + 1, r, none, le⟩
        else if maxSide ≤ 480 then
          ⟨gifExitOf c ne, [⟨maxSide, .nopalette, r⟩], k + 1, r, none,
            some (exitCodeMsg (gifExitOf c ne))⟩
        else
          let out := gifRungLoop beh rb ap rest (k + 1) r (gifExitOf c ne)
              (some (exitCodeMsg (gifExitOf c ne)))
          { out with trace := ⟨maxSide, .nopalette, r⟩ :: out.trace }

/-- Result of the whole GIF phase. -/
inductive GifResult where
  /-- `exitCodeGif` ended 0: the GIF was produced. -/
  | success
  /-- All attempts exhausted; `convertImage` throws the GIF failure error. -/
  | failed (code : Nat)
  /-- A reload (`load()`) threw inside the ladder; the error propagates. -/
  | aborted (msg : String)
deriving DecidableEq, Repr

/-- Outcome of the GIF phase including the executed attempt trace. -/
structure GifOut where
  result : GifResult
  trace : List Att
  execs : Nat
  reloads : Nat
  lastErr : Option String
deriving Repr

/-- The GIF phase: the rung loop (with `exitCodeGif` initialised to 1)
followed, when the loop did not abort and did not succeed, by the final
single-frame attempt at 360 (`useFFmpeg.ts` 1408-1416). -/
def gifPhaseCore (cands : List Nat) (ap : Bool) (beh : Nat → ExecOutcome)
    (rb : Nat → Option String) (k0 r0 : Nat) : GifOut :=
  let lo := gifRungLoop beh rb ap cands k0 r0 1 none
  match lo.aborted with
  | some am => ⟨.aborted am, lo.trace, lo.execs, lo.reloads, lo.lastErr⟩
  | none =>
    if lo.exitCode = 0 then ⟨.success, lo.trace, lo.execs, lo.reloads, lo.lastErr⟩
    else
      match beh lo.execs with
      | .ret c ne =>
        ⟨if gifExitOf c ne = 0 then .success else .failed (gifExitOf c ne),
          lo.trace ++ [⟨360, .singleFrame, lo.reloads⟩], lo.execs + 1, lo.reloads, lo.lastErr⟩
      | .err m =>
        ⟨.failed lo.exitCode, lo.trace ++ [⟨360, .singleFrame, lo.reloads⟩],
          lo.execs + 1, lo.reloads, some m⟩

/-- From `useFFmpeg.ts` 1349-1351: a low-memory device
(`deviceMemory` is a number, positive and at most 4). -/
def isLowMemoryDevice : Option ℚ → Bool
  | none => false
  | some d => decide (0 < d) && decide (d ≤ 4)

/-- From `useFFmpeg.ts` 1352-1353: a very-low-memory device
(positive `deviceMemory` at most 2). -/
def isVeryLowMemoryDevice : Option ℚ → Bool
  | none => false
  | some d => decide (0 < d) && decide (d ≤ 2)

/-- From `useFFmpeg.ts` 1355-1359: the resolution-ceiling candidates chosen
from the device-memory hint. -/
def maxSideCandidates (dm : Option ℚ) : List Nat :=
  if isVeryLowMemoryDevice dm then [480]
  else if isLowMemoryDevice dm then [720, 480]
  else [1280, 960, 720, 480]

/-- The per-format attempt plan implied by the candidate list: at every rung
the palette attempt (when allowed and the rung is at least 720) followed by
the no-palette attempt, then the terminal single-frame attempt at 360. -/
def gifPlanRungs (ap : Bool) : List Nat → List (Nat × GifMode)
  | [] => []
  | m :: rest =>
    (if ap && decide (720 ≤ m) then [(m, .palette), (m, .nopalette)] else [(m, .nopalette)]) ++
      gifPlanRungs ap rest

/-- The full attempt plan for a device-memory hint. -/
def gifPlan (dm : Option ℚ) : List (Nat × GifMode) :=
  gifPlanRungs (!isLowMemoryDevice dm) (maxSideCandidates dm) ++ [(360, .singleFrame)]

/-- The GIF phase of a conversion, started with fresh exec and reload
counters, for a device-memory hint. -/
def gifPhase (dm : Option ℚ) (beh : Nat → ExecOutcome) (rb : Nat → Option String) : GifOut :=
  gifPhaseCore (maxSideCandidates dm) (!isLowMemoryDevice dm) beh rb 0 0

/-- A behaviour in which every exec call returns exit code 1 with an empty
output file: the ladder exhausts every attempt. -/
def behAllFail : Nat → ExecOutcome := fun _ => .ret 1 false

/-- A reload oracle in which every reload succeeds. -/
def rbAllOk : Nat → Option String := fun _ => none

/-- Relation between two consecutively executed attempts, as a function of
the earlier attempt's step result: after a success there is no further
attempt; after a plain non-zero exit the ladder advances without reloading
(either to the no-palette attempt of the same rung or to a smaller ceiling);
after a recoverable thrown error it reloads and advances to a strictly
smaller ceiling; after any other thrown error only the single-frame attempt
can follow. -/
def Adj (a b : Att) : Except String Nat → Prop
  | .ok 0 => False
  | .ok (_ + 1) =>
    b.reloadsBefore = a.reloadsBefore ∧
      (b.maxSide < a.maxSide ∨
        (b.maxSide = a.maxSide ∧ a.mode = GifMode.palette ∧ b.mode = GifMode.nopalette))
  | .error m =>
    if recoverableGifError m then
      b.reloadsBefore = a.reloadsBefore + 1 ∧ b.maxSide < a.maxSide
    else
      b.reloadsBefore = a.reloadsBefore ∧ b.mode = GifMode.singleFrame ∧
        b.maxSide < a.maxSide

/-- All consecutive pairs of a trace satisfy `Adj`, with `k` the exec index
of the trace's first attempt. -/
def AdjAt (beh : Nat → ExecOutcome) (k : Nat) (T : List Att) : Prop :=
  ∀ i a b, T.get? i = some a → T.get? (i + 1) = some b → Adj a b (runStep beh (k + i))

/-- The cost ordering claimed for the executed attempt sequence: the
resolution ceiling strictly drops, or stays equal with the palette attempt
preceding the no-palette attempt. -/
def costDecreases (a b : Att) : Prop :=
  b.maxSide < a.maxSide ∨
    (b.maxSide = a.maxSide ∧ a.mode = GifMode.palette ∧ b.mode = GifMode.nopalette)

/-! ### MP4 phase and `convertImage` result (`useFFmpeg.ts` 994-1190 and
1418-1563) -/

/-- The MP4 failure message (`useFFmpeg.ts` 1149-1155). -/
def mp4FailMsg (c : Nat) : String :=
  if c = 1 then "FFmpeg failed or timed out during MP4 video conversion (exit code 1)."
  else "FFmpeg failed during MP4 video conversion (exit code " ++ toString c ++ ")."

/-- The empty-MP4-output message (`useFFmpeg.ts` 1163-1167). -/
def mp4EmptyMsg : String :=
  "MP4 output is empty. The conversion likely aborted before writing the file. Try a smaller input image or reload the page."

/-- The GIF failure message with its out-of-memory hint
(`useFFmpeg.ts` 1418-1428). -/
def gifFailMsg (c : Nat) (lastErr : Option String) : String :=
  let hint :=
    match lastErr with
    | some m =>
      if isLikelyWasmAbort m then
        " GIF conversion likely ran out of memory in the browser. Try a smaller input image, close other tabs, or use a desktop browser."
      else ""
    | none => ""
  (if c = 1 then "FFmpeg failed or timed out during GIF conversion (exit code 1)."
   else "FFmpeg failed during GIF conversion (exit code " ++ toString c ++ ").") ++ hint

/-- Result of the MP4 phase: `ok nonEmpty` when an attempt ended with exit
code 0 (`nonEmpty` = whether the output file read afterwards is non-empty),
or the propagated error message. -/
structure Mp4Out where
  result : Except String Bool
  execs : Nat
  reloads : Nat
deriving Repr

/-- The catch around the MP4 attempts (`useFFmpeg.ts` 1128-1147): on a
watchdog stuck error the engine is reloaded via `load()` and the mpeg4
attempt retried once; any other error is rethrown. -/
def mp4Catch (beh : Nat → ExecOutcome) (rb : Nat → Option String) (m : String)
    (k : Nat) : Mp4Out :=
  if strEndsWith m "Worker was terminated." then
    match rb 0 with
    | some am => ⟨.error am, k, 1⟩
    | none =>
      match beh k with
      | .ret c ne =>
        if gifExitOf c ne = 0 then ⟨.ok ne, k + 1, 1⟩
        else ⟨.error (mp4FailMsg (gifExitOf c ne)), k + 1, 1⟩
      | .err m2 => ⟨.error m2, k + 1, 1⟩
  else ⟨.error m, k, 0⟩

/-- The MP4 phase (`useFFmpeg.ts` 1122-1155): the libx264 attempt at exec 0,
the mpeg4 retry on a non-zero exit, the reload-and-retry catch on a stuck
error, and the final exit-code check. -/
def mp4Phase (beh : Nat → ExecOutcome) (rb : Nat → Option String) : Mp4Out :=
  match beh 0 with
  | .ret c ne =>
    if gifExitOf c ne = 0 then ⟨.ok ne, 1, 0⟩
    else
      match beh 1 with
      | .ret c2 ne2 =>
        if gifExitOf c2 ne2 = 0 then ⟨.ok ne2, 2, 0⟩
        else ⟨.error (mp4FailMsg (gifExitOf c2 ne2)), 2, 0⟩
      | .err m => mp4Catch beh rb m 2
  | .err m => mp4Catch beh rb m 1

/-- The partial-result branch of `convertImage`'s outer catch
(`useFFmpeg.ts` 1464-1471): a thrown message containing
"cancelled by user" returns the MP4 partial result when one exists;
every other error is rethrown. -/
def convertCatch (mp4Done : Bool) (m : String) : Except String (Bool × Bool) :=
  if strHasSeg m "cancelled by user" && mp4Done then .ok (true, false) else .error m

/-- Observable outcome of `convertImage`: the returned `{mp4, gif}` presence
flags or the thrown message, whether the MP4 result had been produced, and
the GIF phase outcome when it ran. -/
structure ConvertOut where
  result : Except String (Bool × Bool)
  mp4Done : Bool
  gif : Option GifOut
  execs : Nat
  reloads : Nat
deriving Repr

/-- Model of the conversion pipeline of `convertImage` from the first engine
command on (the engine is loaded; no cooperative cancellation signal fires):
the MP4 phase, the empty-output check, the GIF ladder, and the outer catch. -/
def convertImageModel (dm : Option ℚ) (beh : Nat → ExecOutcome)
    (rb : Nat → Option String) : ConvertOut :=
  let m4 := mp4Phase beh rb
  match m4.result with
  | .error msg => ⟨convertCatch false msg, false, none, m4.execs, m4.reloads⟩
  | .ok ne =>
    if ne then
      let g := gifPhaseCore (maxSideCandidates dm) (!isLowMemoryDevice dm) beh rb
          m4.execs m4.reloads
      match g.result with
      | .success => ⟨.ok (true, true), true, some g, g.execs, g.reloads⟩
      | .failed c => ⟨convertCatch true (gifFailMsg c g.lastErr), true, some g, g.execs, g.reloads⟩
      | .aborted am => ⟨convertCatch true am, true, some g, g.execs, g.reloads⟩
    else ⟨convertCatch false mp4EmptyMsg, false, none, m4.execs, m4.reloads⟩

/-! ### Batch queue (`useBatchConversion.ts`, `conversionQueue.ts`) -/

/-- Queue item status (`conversionQueue.ts` 6-12). -/
inductive QStatus where
  | pending
  | validating
  | converting
  | completed
  | failed
  | cancelled
deriving DecidableEq, Repr

/-- Final status assigned to one queue item by `processItem`
(`useBatchConversion.ts` 51-123).  `p1`, `p2`, `p3` are the values of the
three `isPaused()` reads (at entry, after validation, and in the catch
block); `validation` is the result of `validateImageFile` (`ok valid` or a
rejection); `conv` is the result of `convertImage`. -/
def processItemFinal (p1 p2 p3 : Bool) (validation : Except String Bool)
    (conv : Except String (Bool × Bool)) : QStatus :=
  if p1 then .pending
  else
    match validation with
    | .error _ => if p3 then .pending else .failed
    | .ok false => .failed
    | .ok true =>
      if p2 then .pending
      else
        match conv with
        | .ok _ => .completed
        | .error _ => if p3 then .pending else .failed

/-- The pop sequence of one `processQueue` invocation
(`useBatchConversion.ts` 140-154): before each pop the loop reads
`isPaused()`; `pauseRead n` is the value of the n-th read.  The result is
the list of items popped, in order. -/
def processLoopPops (pauseRead : Nat → Bool) : List String → Nat → List String
  | [], _ => []
  | x :: rest, n => if pauseRead n then [] else x :: processLoopPops pauseRead rest (n + 1)

/-- A queue item record (`conversionQueue.ts` `QueueItem`), with the result
presence flags in place of blob URLs. -/
structure QItemRec where
  id : String
  status : QStatus
  error : Option String
  progress : ℚ
  addedAt : Nat
  startedAt : Option Nat
  completedAt : Option Nat
  resultMp4 : Bool
  resultGif : Bool
deriving DecidableEq, Repr

/-- `ConversionQueue.getItem`: first record with the given id (the map's
keys are unique by construction). -/
def getItemQ : List QItemRec → String → Option QItemRec
  | [], _ => none
  | it :: rest, i => if it.id = i then some it else getItemQ rest i

/-- `ConversionQueue.remove` (`conversionQueue.ts` 130-132): `Map.delete` —
remove the entry and report whether it existed. -/
def mapDelete : List QItemRec → String → Bool × List QItemRec
  | [], _ => (false, [])
  | it :: rest, i =>
    if it.id = i then (true, rest)
    else
      let (b, r) := mapDelete rest i
      (b, it :: r)

/-- `removeItem` of the batch hook (`useBatchConversion.ts` 185-199):
missing id ⟶ false; `validating`/`converting` ⟶ false; otherwise delegate
to `ConversionQueue.remove`. -/
def removeItemHook (q : List QItemRec) (i : String) : Bool × List QItemRec :=
  match getItemQ q i with
  | none => (false, q)
  | some it =>
    if it.status = QStatus.validating ∨ it.status = QStatus.converting then (false, q)
    else mapDelete q i

/-- `ConversionQueue.clearCompleted` (`conversionQueue.ts` 137-146): delete
every entry whose status is `completed`, counting the deletions. -/
def clearCompletedQ : List QItemRec → Nat × List QItemRec
  | [] => (0, [])
  | it :: rest =>
    let (n, r) := clearCompletedQ rest
    if it.status = QStatus.completed then (n + 1, r) else (n, it :: r)

/-! ### Asset cache (`cacheManager.ts` 92-124) -/

/-- A stored cache record; each URL field is absent (`none`) or a string
(the empty string is falsy in the validation check). -/
structure CachedRec where
  coreURL : Option String
  wasmURL : Option String
  workerURL : Option String
  timestamp : Nat
  version : String
deriving DecidableEq, Repr

/-- JavaScript truthiness of an optional string field. -/
def truthyField : Option String → Bool
  | none => false
  | some s => !(s = "")

/-- The storage environment: whether IndexedDB is available, and the result
of a store lookup (`error` models a rejected IndexedDB request, which the
surrounding try/catch converts to a miss). -/
structure CacheEnv where
  available : Bool
  lookup : String → Except String (Option CachedRec)

/-- `getCachedAssets(version)` (`cacheManager.ts` 92-124): unavailable
storage, a rejected lookup, a missing record, or a record with a missing
field all yield a miss; only a record with all three fields truthy is
returned. -/
def getCachedAssets (env : CacheEnv) (version : String) : Option CachedRec :=
  if !env.available then none
  else
    match env.lookup version with
    | .error _ => none
    | .ok none => none
    | .ok (some r) =>
      if truthyField r.coreURL && truthyField r.wasmURL && truthyField r.workerURL then
        some r
      else none

/-! ### Auxiliary notions for the ladder proofs -/

/-- The mode of the first attempt a rung executes. -/
def firstMode (ap : Bool) (m : Nat) : GifMode :=
  if ap && decide (720 ≤ m) then .palette else .nopalette

/-- How many reloads one step outcome causes in the ladder: one for a
recoverable thrown error, none otherwise. -/
def reloadDelta (o : Except String Nat) : Nat :=
  match o with
  | .error m => if recoverableGifError m then 1 else 0
  | .ok _ => 0

/-- Aggregate invariant of the rung loop, relating the loop's output to its
inputs: exec indices are consecutive, the first executed attempt is the first
attempt of the first rung, the last attempt's ceiling is one of the
candidates, consecutive attempts satisfy `Adj`, the loop only ends with exit
code 0 when its last step succeeded, the final reload counter accounts for a
trailing recoverable error, and an empty trace means an empty candidate
list was passed. -/
structure LoopBundle (beh : Nat → ExecOutcome) (ap : Bool) (cands : List Nat)
    (k r ec : Nat) (out : LoopOut) : Prop where
  execs_eq : out.execs = k + out.trace.length
  head_eq : out.trace.head? = cands.head?.map (fun m => Att.mk m (firstMode ap m) r)
  last_mem : ∀ a, out.trace.getLast? = some a → a.maxSide ∈ cands
  adj : AdjAt beh k out.trace
  last_not_ok0 : out.exitCode ≠ 0 → ∀ a, out.trace.getLast? = some a →
    runStep beh (k + (out.trace.length - 1)) ≠ Except.ok 0
  reloads_last : out.aborted = none → ∀ a, out.trace.getLast? = some a →
    out.reloads = a.reloadsBefore + reloadDelta (runStep beh (k + (out.trace.length - 1)))
  nil_out : out.trace = [] → out.reloads = r ∧ out.exitCode = ec ∧ out.aborted = none

/-- Behaviour used in witnesses: the first exec call throws a wasm-abort
signature (a recoverable failure), every later call fails with a plain
exit code 1. -/
def behW : Nat → ExecOutcome :=
  fun k => if k = 0 then .err "Aborted()" else .ret 1 false

/-- Behaviour of the C1 counterexample: the MP4 exec succeeds with a
non-empty output, every GIF exec fails with a plain exit code 1. -/
def behC1 : Nat → ExecOutcome :=
  fun k => if k = 0 then .ret 0 true else .ret 1 false

end DropConvert

namespace DropConvert

/-! ## Helper lemmas -/

theorem listBeginsWith_append (p : List Char) :
    ∀ (x y : List Char), listBeginsWith x p = true → listBeginsWith (x ++ y) p = true := by
  induction p with
  | nil => intro x y _; cases x <;> simp [listBeginsWith]
  | cons b t ih =>
    intro x y h
    cases x with
    | nil => simp [listBeginsWith] at h
    | cons a s =>
      simp only [List.cons_append, listBeginsWith, Bool.and_eq_true] at h ⊢
      exact ⟨h.1, ih s y h.2⟩

theorem stuckMsg_endsWith (label : String) :
    strEndsWith (stuckMsg label) "Worker was terminated." = true := by
  unfold stuckMsg strEndsWith
  rw [String.data_append, String.data_append, List.reverse_append]
  exact listBeginsWith_append _ _ _ (by decide)

theorem clamp01_nonneg (x : ℚ) : 0 ≤ clamp01 x := le_max_left _ _

theorem clamp01_le_one (x : ℚ) : clamp01 x ≤ 1 :=
  max_le (by norm_num) (min_le_left _ _)

theorem progStep_published_mono (st : ProgState) (e : ProgEvent) :
    st.published ≤ (progStep st e).published := by
  cases e with
  | compute x => exact le_refl _
  | flush =>
    unfold progStep flushProgress
    cases st.pending with
    | none => exact le_refl _
    | some v => exact le_max_left _ _

theorem runProg_published_mono (evs : List ProgEvent) :
    ∀ st : ProgState, st.published ≤ (runProg st evs).published := by
  induction evs with
  | nil => intro st; exact le_refl _
  | cons e rest ih =>
    intro st
    exact le_trans (progStep_published_mono st e) (ih (progStep st e))

theorem mapDelete_found :
    ∀ (q : List QItemRec) (i : String) (it : QItemRec),
      getItemQ q i = some it → (mapDelete q i).1 = true := by
  intro q
  induction q with
  | nil => intro i it h; simp [getItemQ] at h
  | cons a rest ih =>
    intro i it h
    by_cases ha : a.id = i
    · simp [mapDelete, ha]
    · simp only [getItemQ, if_neg ha] at h
      simp only [mapDelete, if_neg ha]
      exact ih i it h

theorem processLoopPops_le :
    ∀ (pr : Nat → Bool) (q : List String) (n j : Nat),
      pr (n + j) = true → (processLoopPops pr q n).length ≤ j := by
  intro pr q
  induction q with
  | nil => intro n j _; simp [processLoopPops]
  | cons x rest ih =>
    intro n j h
    by_cases h0 : pr n = true
    · simp [processLoopPops, h0]
    · cases j with
      | zero => exact absurd (by simpa using h) h0
      | succ j' =>
        simp only [processLoopPops, if_neg h0, List.length_cons]
        have := ih (n + 1) j' (by
          have : n + 1 + j' = n + (j' + 1) := by omega
          rw [this]; exact h)
        omega

/-! ## Claim theorems -/

/-- Claim C2: when the exec promise never settles before the hard timeout —
whether it settles later (with any exit code or rejection, discarded
regardless of which racer wins) or never settles — the watchdog performs
exactly one engine termination and the call rejects with the stuck/terminated
error, which the error classifier maps to `exec-timeout`. -/
theorem C2_watchdog_timeout (label : String) (o : Except String Nat) (pollWins : Bool) :
    execWithHardTimeout label (.settlesAfter o pollWins) =
      ⟨.error (stuckMsg label), 1⟩ ∧
    execWithHardTimeout label .neverSettles = ⟨.error (stuckMsg label), 1⟩ ∧
    classifyConvertError (stuckMsg label) = .execTimeout := by
  refine ⟨?_, rfl, ?_⟩
  · cases pollWins <;> cases o <;> rfl
  · simp [classifyConvertError, stuckMsg_endsWith]

/-- Claim C5: `load()` is idempotent (already loaded ⟶ immediate return, no
body run), de-duplicated (an in-flight load is awaited, no second body run),
runs the load body at most once per call, and after a failed load the engine
state is fully reset (unloaded, no in-flight promise, listeners detached) so
that the next `load()` runs the body afresh. -/
theorem C5_load_idempotent_dedup (st : EngineSt) (out : LoadOutcome) :
    (st.loaded = true → loadCall st out = (.alreadyLoaded, st)) ∧
    (st.loaded = false → st.inFlight = true → loadCall st out = (.awaitedInFlight, st)) ∧
    (∀ m, st.loaded = false → st.inFlight = false → out = .failure m →
      (loadCall st out).2 = ⟨false, false, false, st.bodyRuns + 1⟩) ∧
    ((loadCall st out).2.bodyRuns ≤ st.bodyRuns + 1) ∧
    (∀ m (out2 : LoadOutcome), st.loaded = false → st.inFlight = false → out = .failure m →
      (loadCall (loadCall st out).2 out2).1 = .fresh out2) := by
  obtain ⟨ld, fl, ls, br⟩ := st
  refine ⟨?_, ?_, ?_, ?_, ?_⟩ <;>
    cases ld <;> cases fl <;> cases out <;>
      simp [loadCall, loadBody]

/-- Witness for C5 at a concrete loaded state. -/
theorem C5_load_idempotent_dedup_witness :
    loadCall ⟨true, false, false, 3⟩ LoadOutcome.success =
      (LoadRes.alreadyLoaded, ⟨true, false, false, 3⟩) :=
  (C5_load_idempotent_dedup ⟨true, false, false, 3⟩ LoadOutcome.success).1 rfl

/-- Claim C8: the published progress value is monotone (per step and over any
event sequence), a flush publishes exactly the maximum of the previously
published value and the pending computed fraction, computing alone publishes
nothing, and both channels only produce clamped 0..1 fractions. -/
theorem C8_progress_monotone (st : ProgState) (e : ProgEvent) (evs : List ProgEvent)
    (v x : ℚ) (pv tv tg ps : Option ℚ) :
    (st.published ≤ (progStep st e).published) ∧
    (st.published ≤ (runProg st evs).published) ∧
    (st.pending = some v → progStep st .flush = ⟨max st.published v, none⟩) ∧
    ((progStep st (.compute x)).published = st.published) ∧
    (0 ≤ progressChannelNext pv tv tg ∧ progressChannelNext pv tv tg ≤ 1) ∧
    (∀ f, logChannelNext ps tg = some f → 0 ≤ f ∧ f ≤ 1) := by
  refine ⟨progStep_published_mono st e, runProg_published_mono evs st, ?_, rfl, ?_, ?_⟩
  · intro h
    simp [progStep, flushProgress, h]
  · exact ⟨clamp01_nonneg _, clamp01_le_one _⟩
  · intro f hf
    unfold logChannelNext at hf
    cases tg with
    | none => simp at hf
    | some t =>
      by_cases ht : t ≤ 0
      · simp [ht] at hf
      · cases ps with
        | none => simp [ht] at hf
        | some s =>
          simp only [if_neg ht, Option.some.injEq] at hf
          exact hf ▸ ⟨clamp01_nonneg _, clamp01_le_one _⟩

/-- Witness for C8: a concrete flush publishes the max of the previous value
and the pending fraction. -/
theorem C8_progress_monotone_witness :
    progStep ⟨1/2, some (3/4)⟩ ProgEvent.flush = ⟨max (1/2 : ℚ) (3/4), none⟩ :=
  (C8_progress_monotone ⟨1/2, some (3/4)⟩ ProgEvent.flush [] (3/4) 0 none none none none).2.2.1 rfl

/-- Claim C9: `getCachedAssets(version)` never raises — unavailable storage,
a rejected lookup, an unseen version, and a record missing any of the three
required fields all collapse to a miss (`none`) — and a bundle is returned
exactly when the stored record has all three fields present. -/
theorem C9_cache_get_total (env : CacheEnv) (v : String) :
    (env.available = false → getCachedAssets env v = none) ∧
    (∀ e, env.lookup v = .error e → getCachedAssets env v = none) ∧
    (env.lookup v = .ok none → getCachedAssets env v = none) ∧
    (env.available = true → ∀ r, env.lookup v = .ok (some r) →
      getCachedAssets env v =
        (if truthyField r.coreURL && truthyField r.wasmURL && truthyField r.workerURL
         then some r else none)) ∧
    (∀ r, getCachedAssets env v = some r →
      truthyField r.coreURL = true ∧ truthyField r.wasmURL = true ∧
        truthyField r.workerURL = true ∧ env.lookup v = .ok (some r)) := by
  refine ⟨?_, ?_, ?_, ?_, ?_⟩
  · intro h; simp [getCachedAssets, h]
  · intro e h
    unfold getCachedAssets
    cases env.available <;> simp_all
  · intro h
    unfold getCachedAssets
    cases env.available <;> simp_all
  · intro hav r h
    unfold getCachedAssets
    simp [hav, h]
  · intro r h
    unfold getCachedAssets at h
    cases hav : env.available
    · simp [hav] at h
    · rw [hav] at h
      simp only [Bool.not_true, Bool.false_eq_true, if_false] at h
      cases hl : env.lookup v with
      | error e => simp [hl] at h
      | ok o =>
        cases o with
        | none => simp [hl] at h
        | some rec0 =>
          simp only [hl] at h
          by_cases htr : (truthyField rec0.coreURL && truthyField rec0.wasmURL &&
              truthyField rec0.workerURL) = true
          · rw [if_pos htr] at h
            obtain rfl : rec0 = r := by injection h
            simp only [Bool.and_eq_true] at htr
            exact ⟨htr.1.1, htr.1.2, htr.2, rfl⟩
          · rw [if_neg htr] at h
            exact absurd h (by simp)

/-- Witness for C9: a record with a missing `wasmURL` field is a miss. -/
theorem C9_cache_get_total_witness :
    getCachedAssets
      ⟨true, fun _ => .ok (some ⟨some "c", none, some "w", 0, "v"⟩)⟩ "v" = none :=
  (C9_cache_get_total ⟨true, fun _ => .ok (some ⟨some "c", none, some "w", 0, "v"⟩)⟩ "v").2.2.2.1
    rfl ⟨some "c", none, some "w", 0, "v"⟩ rfl

/-- Claim C10: `clearCompleted()` removes exactly the items whose status is
`completed`, returns the number of removed items, and leaves every other
item unchanged, in order (the remaining queue is the filter of the original
one). -/
theorem C10_clear_completed (q : List QItemRec) :
    (clearCompletedQ q).2 =
      q.filter (fun it => !decide (it.status = QStatus.completed)) ∧
    (clearCompletedQ q).1 =
      (q.filter (fun it => decide (it.status = QStatus.completed))).length ∧
    (clearCompletedQ q).1 + (clearCompletedQ q).2.length = q.length := by
  induction q with
  | nil => simp [clearCompletedQ]
  | cons it rest ih =>
    rcases hcr : clearCompletedQ rest with ⟨n, r⟩
    rw [hcr] at ih
    obtain ⟨h1, h2, h3⟩ := ih
    by_cases hs : it.status = QStatus.completed
    · refine ⟨?_, ?_, ?_⟩
      · simp [clearCompletedQ, hcr, hs, List.filter_cons, h1]
      · simp [clearCompletedQ, hcr, hs, List.filter_cons, h2]
      · simp only [clearCompletedQ, hcr, if_pos hs, List.length_cons]
        simp only at h3
        omega
    · refine ⟨?_, ?_, ?_⟩
      · simp [clearCompletedQ, hcr, hs, List.filter_cons, h1]
      · simp [clearCompletedQ, hcr, hs, List.filter_cons, h2]
      · simp only [clearCompletedQ, hcr, if_neg hs, List.length_cons]
        simp only at h3
        omega

/-- Counterexample for C7: an item whose status is `completed` — neither
`pending` nor `failed` — is removed successfully (`remove` returns `true`
and deletes it), contradicting the claim that removal succeeds only for
`pending` or `failed` items. -/
theorem C7_remove_completed_counterexample :
    removeItemHook [⟨"a", QStatus.completed, none, 0, 0, none, none, false, false⟩] "a"
      = (true, []) := by rfl

/-- Claim C7 (amended): `remove(id)` succeeds exactly when the item exists
and its status is neither `validating` nor `converting` (so `completed` and
`cancelled` items are also removable); for an in-flight item or an unknown
id it returns `false` and the queue is unchanged. -/
theorem C7_remove_conditions (q : List QItemRec) (i : String) :
    ((removeItemHook q i).1 = true ↔
      ∃ it, getItemQ q i = some it ∧ it.status ≠ QStatus.validating ∧
        it.status ≠ QStatus.converting) ∧
    ((removeItemHook q i).1 = false → (removeItemHook q i).2 = q) ∧
    (getItemQ q i = none → removeItemHook q i = (false, q)) := by
  refine ⟨⟨?_, ?_⟩, ?_, ?_⟩
  · intro h
    cases hg : getItemQ q i with
    | none => simp [removeItemHook, hg] at h
    | some it =>
      by_cases hs : it.status = QStatus.validating ∨ it.status = QStatus.converting
      · simp [removeItemHook, hg, hs] at h
      · push_neg at hs
        exact ⟨it, rfl, hs.1, hs.2⟩

  · rintro ⟨it, hg, hv, hc⟩
    have hs : ¬(it.status = QStatus.validating ∨ it.status = QStatus.converting) := by tauto
    simp only [removeItemHook, hg, if_neg hs]
    exact mapDelete_found q i it hg
  · intro h
    cases hg : getItemQ q i with
    | none => simp [removeItemHook, hg]
    | some it =>
      by_cases hs : it.status = QStatus.validating ∨ it.status = QStatus.converting
      · simp [removeItemHook, hg, hs]
      · exfalso
        have hfound := mapDelete_found q i it hg
        simp only [removeItemHook, hg, if_neg hs] at h
        rw [h] at hfound
        exact Bool.false_ne_true hfound
  · intro h
    simp [removeItemHook, h]

/-- Witness for C7: removing an existing `pending` item succeeds. -/
theorem C7_remove_conditions_witness :
    (removeItemHook [⟨"a", QStatus.pending, none, 0, 0, none, none, false, false⟩] "a").1
      = true :=
  (C7_remove_conditions [⟨"a", QStatus.pending, none, 0, 0, none, none, false, false⟩] "a").1.mpr
    ⟨⟨"a", QStatus.pending, none, 0, 0, none, none, false, false⟩, rfl, by decide, by decide⟩

/-- Counterexample for C6: an item being processed when pause takes effect
can be reverted to the non-terminal status `pending` — here validation
succeeded, the post-validation `isPaused()` read is true, and the item ends
`pending`, not in a terminal status. -/
theorem C6_pause_revert_counterexample :
    processItemFinal false true false (.ok true) (.ok (true, true)) = QStatus.pending := rfl

/-- Claim C6 (amended): after `pause()` the processing loop pops no further
pending item (at most the pops made before the first paused check); the
in-flight item is never abandoned in a mid-processing status — it always
ends `pending`, `completed` or `failed` — and it reaches a terminal status
whenever no pause is observed at its checkpoints; if pause is observed at
the post-validation checkpoint or when the conversion fails while paused,
the item is reverted to `pending` for later re-processing. -/
theorem C6_pause_semantics :
    (∀ (pr : Nat → Bool) (q : List String) (n : Nat), pr n = true →
      (processLoopPops pr q 0).length ≤ n) ∧
    (∀ (p1 p2 p3 : Bool) (validation : Except String Bool)
        (conv : Except String (Bool × Bool)),
      processItemFinal p1 p2 p3 validation conv = QStatus.pending ∨
      processItemFinal p1 p2 p3 validation conv = QStatus.completed ∨
      processItemFinal p1 p2 p3 validation conv = QStatus.failed) ∧
    (∀ (validation : Except String Bool) (conv : Except String (Bool × Bool)),
      processItemFinal false false false validation conv ≠ QStatus.pending) := by
  refine ⟨?_, ?_, ?_⟩
  · intro pr q n h
    exact processLoopPops_le pr q 0 n (by simpa using h)
  · intro p1 p2 p3 validation conv
    unfold processItemFinal
    rcases validation with m | b
    · cases p1 <;> cases p3 <;> simp
    · cases p1 <;> cases p2 <;> cases p3 <;> cases b <;> rcases conv with m | r <;> simp
  · intro validation conv
    unfold processItemFinal
    rcases validation with m | b
    · simp
    · cases b <;> rcases conv with m | r <;> simp

/-- Witness for C6: with the pause flag raised from the start, the loop pops
nothing. -/
theorem C6_pause_semantics_witness :
    (processLoopPops (fun _ => true) ["a", "b"] 0).length ≤ 0 :=
  C6_pause_semantics.1 (fun _ => true) ["a", "b"] 0 rfl

end DropConvert

namespace DropConvert

/-! ## Ladder infrastructure lemmas -/

theorem adjAt_nil (beh : Nat → ExecOutcome) (k : Nat) : AdjAt beh k [] := by
  intro i a b h1 _
  simp at h1

theorem adjAt_singleton (beh : Nat → ExecOutcome) (k : Nat) (a : Att) :
    AdjAt beh k [a] := by
  intro i x y _ h2
  rcases i with _ | i <;> simp at h2

theorem adjAt_cons (beh : Nat → ExecOutcome) (k : Nat) (a : Att) (l : List Att)
    (hhead : ∀ b, l.head? = some b → Adj a b (runStep beh k))
    (htail : AdjAt beh (k + 1) l) : AdjAt beh k (a :: l) := by
  intro i x y h1 h2
  cases i with
  | zero =>
    simp only [List.get?_cons_zero, Option.some.injEq] at h1
    subst h1
    have h2' : l.head? = some y := by
      rw [← List.get?_zero]
      simpa using h2
    simpa using hhead y h2'
  | succ i =>
    have harith : k + (i + 1) = (k + 1) + i := by omega
    rw [harith]
    exact htail i x y (by simpa using h1) (by simpa using h2)

theorem adjAt_append_singleton (beh : Nat → ExecOutcome) (k : Nat) (l : List Att) (b : Att)
    (h1 : AdjAt beh k l)
    (h2 : ∀ a, l.getLast? = some a → Adj a b (runStep beh (k + (l.length - 1)))) :
    AdjAt beh k (l ++ [b]) := by
  intro i x y hx hy
  have hbound := (List.get?_eq_some.mp hy).1
  rw [List.length_append, List.length_singleton] at hbound
  have hxl : i < l.length := by omega
  have hx' : l.get? i = some x := by rw [List.get?_append hxl] at hx; exact hx
  by_cases hi : i + 1 < l.length
  · have hy' : l.get? (i + 1) = some y := by rw [List.get?_append hi] at hy; exact hy
    exact h1 i x y hx' hy'
  · have hlen : i + 1 = l.length := by omega
    have hyb : y = b := by
      rw [List.get?_append_right (by omega)] at hy
      rw [hlen] at hy
      simpa using hy.symm
    subst hyb
    have hlast : l.getLast? = some x := by
      rw [List.getLast?_eq_get?, show l.length - 1 = i from by omega]
      exact hx'
    have := h2 x hlast
    rwa [show k + (l.length - 1) = k + i from by omega] at this

theorem adj_of_ret (a b : Att) (c : Nat) (hc : c ≠ 0)
    (h1 : b.reloadsBefore = a.reloadsBefore)
    (h2 : b.maxSide < a.maxSide ∨
      (b.maxSide = a.maxSide ∧ a.mode = GifMode.palette ∧ b.mode = GifMode.nopalette)) :
    Adj a b (.ok c) := by
  obtain ⟨n, hn⟩ := Nat.exists_eq_succ_of_ne_zero hc
  rw [hn]
  exact ⟨h1, h2⟩

theorem adj_of_error_rec (a b : Att) (m : String) (hrec : recoverableGifError m = true)
    (h1 : b.reloadsBefore = a.reloadsBefore + 1) (h2 : b.maxSide < a.maxSide) :
    Adj a b (.error m) := by
  show if recoverableGifError m then _ else _
  rw [if_pos hrec]
  exact ⟨h1, h2⟩

theorem adj_of_error_nonrec (a b : Att) (m : String) (hrec : recoverableGifError m = false)
    (h1 : b.reloadsBefore = a.reloadsBefore) (h2 : b.mode = GifMode.singleFrame)
    (h3 : b.maxSide < a.maxSide) :
    Adj a b (.error m) := by
  show if recoverableGifError m then _ else _
  rw [if_neg (by simp [hrec])]
  exact ⟨h1, h2, h3⟩

end DropConvert

namespace DropConvert

theorem bundle_term1 (beh : Nat → ExecOutcome) (ap : Bool)
    (maxSide : Nat) (rest : List Nat) (k r ec : Nat)
    (md : GifMode) (hmd : md = firstMode ap maxSide)
    (e k2 r2 : Nat) (ab le2 : Option String)
    (hk2 : k2 = k + 1)
    (hnotok0 : e ≠ 0 → runStep beh k ≠ Except.ok 0)
    (hrel2 : ab = none → r2 = r + reloadDelta (runStep beh k)) :
    LoopBundle beh ap (maxSide :: rest) k r ec
      ⟨e, [⟨maxSide, md, r⟩], k2, r2, ab, le2⟩ := by
  subst hmd hk2
  refine ⟨by simp, by simp, ?_, adjAt_singleton beh k _, ?_, ?_, by simp⟩
  · intro a ha
    simp only [List.getLast?_singleton, Option.some.injEq] at ha
    subst ha
    simp
  · intro he a _
    simpa using hnotok0 he
  · intro hab a ha
    simp only [List.getLast?_singleton, Option.some.injEq] at ha
    subst ha
    simpa using hrel2 hab

theorem bundle_term2 (beh : Nat → ExecOutcome) (ap : Bool)
    (maxSide : Nat) (rest : List Nat) (k r ec : Nat)
    (hmd : firstMode ap maxSide = GifMode.palette)
    (hadjmid : Adj ⟨maxSide, .palette, r⟩ ⟨maxSide, .nopalette, r⟩ (runStep beh k))
    (e k2 r2 : Nat) (ab le2 : Option String)
    (hk2 : k2 = k + 2)
    (hnotok0 : e ≠ 0 → runStep beh (k + 1) ≠ Except.ok 0)
    (hrel2 : ab = none → r2 = r + reloadDelta (runStep beh (k + 1))) :
    LoopBundle beh ap (maxSide :: rest) k r ec
      ⟨e, [⟨maxSide, .palette, r⟩, ⟨maxSide, .nopalette, r⟩], k2, r2, ab, le2⟩ := by
  subst hk2
  refine ⟨by simp, by simp [hmd], ?_, ?_, ?_, ?_, by simp⟩
  · intro a ha
    simp only [List.getLast?_cons_cons, List.getLast?_singleton, Option.some.injEq] at ha
    subst ha
    simp
  · exact adjAt_cons beh k _ _ (by intro b hb; simp at hb; subst hb; exact hadjmid)
      (adjAt_singleton beh (k + 1) _)
  · intro he a _
    simpa using hnotok0 he
  · intro hab a ha
    simp only [List.getLast?_cons_cons, List.getLast?_singleton, Option.some.injEq] at ha
    subst ha
    simpa using hrel2 hab

theorem bundle_rec1 (beh : Nat → ExecOutcome) (ap : Bool)
    (maxSide : Nat) (rest : List Nat) (k r r' ec ec' : Nat)
    (md : GifMode) (hmd : md = firstMode ap maxSide)
    (rec : LoopOut)
    (hrecb : LoopBundle beh ap rest (k + 1) r' ec' rec)
    (hadjhead : ∀ b, rec.trace.head? = some b →
      Adj ⟨maxSide, md, r⟩ b (runStep beh k))
    (hnotok : runStep beh k ≠ Except.ok 0)
    (hreload : r' = r + reloadDelta (runStep beh k)) :
    LoopBundle beh ap (maxSide :: rest) k r ec
      ⟨rec.exitCode, ⟨maxSide, md, r⟩ :: rec.trace, rec.execs, rec.reloads,
        rec.aborted, rec.lastErr⟩ := by
  subst hmd
  refine ⟨?_, by simp, ?_, ?_, ?_, ?_, by simp⟩
  · have := hrecb.execs_eq
    simp only [List.length_cons]
    omega
  · intro a ha
    cases hre : rec.trace with
    | nil =>
      rw [hre] at ha
      simp only [List.getLast?_singleton, Option.some.injEq] at ha
      subst ha
      simp
    | cons b tl =>
      rw [hre, List.getLast?_cons_cons] at ha
      have := hrecb.last_mem a (by rw [hre]; exact ha)
      exact List.mem_cons_of_mem _ this
  · exact adjAt_cons beh k _ _ hadjhead hrecb.adj
  · intro he a ha
    cases hre : rec.trace with
    | nil =>
      rw [hre] at ha
      simp only [List.getLast?_singleton, Option.some.injEq] at ha
      simp only [hre, List.length_cons, List.length_nil]
      simpa using hnotok
    | cons b tl =>
      rw [hre, List.getLast?_cons_cons] at ha
      have hfact := hrecb.last_not_ok0 he a (by rw [hre]; exact ha)
      rw [hre] at hfact
      simp only [List.length_cons] at hfact ⊢
      have hidx : k + (tl.length + 1 + 1 - 1) = k + 1 + (tl.length + 1 - 1) := by omega
      rw [hidx]
      exact hfact
  · intro hab a ha
    cases hre : rec.trace with
    | nil =>
      rw [hre] at ha
      simp only [List.getLast?_singleton, Option.some.injEq] at ha
      subst ha
      have hr' := (hrecb.nil_out hre).1
      simp only [hre, List.length_cons, List.length_nil]
      rw [hr', hreload]
      rfl
    | cons b tl =>
      rw [hre, List.getLast?_cons_cons] at ha
      have hfact := hrecb.reloads_last hab a (by rw [hre]; exact ha)
      rw [hre] at hfact
      simp only [List.length_cons] at hfact ⊢
      have hidx : k + (tl.length + 1 + 1 - 1) = k + 1 + (tl.length + 1 - 1) := by omega
      rw [hidx]
      exact hfact

theorem bundle_rec2 (beh : Nat → ExecOutcome) (ap : Bool)
    (maxSide : Nat) (rest : List Nat) (k r r' ec ec' : Nat)
    (hmd : firstMode ap maxSide = GifMode.palette)
    (hadjmid : Adj ⟨maxSide, .palette, r⟩ ⟨maxSide, .nopalette, r⟩ (runStep beh k))
    (rec : LoopOut)
    (hrecb : LoopBundle beh ap rest (k + 2) r' ec' rec)
    (hadjhead : ∀ b, rec.trace.head? = some b →
      Adj ⟨maxSide, .nopalette, r⟩ b (runStep beh (k + 1)))
    (hnotok : runStep beh (k + 1) ≠ Except.ok 0)
    (hreload : r' = r + reloadDelta (runStep beh (k + 1))) :
    LoopBundle beh ap (maxSide :: rest) k r ec
      ⟨rec.exitCode, ⟨maxSide, .palette, r⟩ :: ⟨maxSide, .nopalette, r⟩ :: rec.trace,
        rec.execs, rec.reloads, rec.aborted, rec.lastErr⟩ := by
  refine ⟨?_, by simp [hmd], ?_, ?_, ?_, ?_, by simp⟩
  · have := hrecb.execs_eq
    simp only [List.length_cons]
    omega
  · intro a ha
    cases hre : rec.trace with
    | nil =>
      rw [hre] at ha
      simp only [List.getLast?_cons_cons, List.getLast?_singleton, Option.some.injEq] at ha
      subst ha
      simp
    | cons b tl =>
      rw [hre, List.getLast?_cons_cons, List.getLast?_cons_cons] at ha
      have := hrecb.last_mem a (by rw [hre]; exact ha)
      exact List.mem_cons_of_mem _ this
  · refine adjAt_cons beh k _ _ (by intro b hb; simp at hb; subst hb; exact hadjmid) ?_
    exact adjAt_cons beh (k + 1) _ _ hadjhead hrecb.adj
  · intro he a ha
    cases hre : rec.trace with
    | nil =>
      rw [hre] at ha
      simp only [List.getLast?_cons_cons, List.getLast?_singleton, Option.some.injEq] at ha
      simp only [hre, List.length_cons, List.length_nil]
      simpa using hnotok
    | cons b tl =>
      rw [hre, List.getLast?_cons_cons, List.getLast?_cons_cons] at ha
      have hfact := hrecb.last_not_ok0 he a (by rw [hre]; exact ha)
      rw [hre] at hfact
      simp only [List.length_cons] at hfact ⊢
      have hidx : k + (tl.length + 1 + 1 + 1 - 1) = k + 2 + (tl.length + 1 - 1) := by omega
      rw [hidx]
      exact hfact
  · intro hab a ha
    cases hre : rec.trace with
    | nil =>
      rw [hre] at ha
      simp only [List.getLast?_cons_cons, List.getLast?_singleton, Option.some.injEq] at ha
      subst ha
      have hr' := (hrecb.nil_out hre).1
      simp only [hre, List.length_cons, List.length_nil]
      rw [hr', hreload]
    | cons b tl =>
      rw [hre, List.getLast?_cons_cons, List.getLast?_cons_cons] at ha
      have hfact := hrecb.reloads_last hab a (by rw [hre]; exact ha)
      rw [hre] at hfact
      simp only [List.length_cons] at hfact ⊢
      have hidx : k + (tl.length + 1 + 1 + 1 - 1) = k + 2 + (tl.length + 1 - 1) := by omega
      rw [hidx]
      exact hfact

end DropConvert

namespace DropConvert

theorem gifRungLoop_bundle (beh : Nat → ExecOutcome) (rb : Nat → Option String) (ap : Bool) :
    ∀ (cands : List Nat) (k r ec : Nat) (le : Option String),
      List.Chain' (fun a b => b < a) cands → ec ≠ 0 →
      LoopBundle beh ap cands k r ec (gifRungLoop beh rb ap cands k r ec le) := by
  intro cands
  induction cands with
  | nil =>
    intro k r ec le _ _
    exact ⟨rfl, rfl, fun a ha => Option.noConfusion ha, adjAt_nil beh k,
      fun _ a ha => Option.noConfusion ha, fun _ a ha => Option.noConfusion ha,
      fun _ => ⟨rfl, rfl, rfl⟩⟩
  | cons maxSide rest ih =>
    intro k r ec le hchain hec
    obtain ⟨hrel, hchain'⟩ := List.chain'_cons'.mp hchain
    by_cases hap : (ap && decide (720 ≤ maxSide)) = true
    · have hfm : firstMode ap maxSide = GifMode.palette := by
        unfold firstMode; rw [if_pos hap]
      cases hbk : beh k with
      | err m =>
        have hstep : runStep beh k = .error m := by simp [runStep, hbk]
        by_cases hrec : recoverableGifError m = true
        · cases hrb : rb r with
          | none =>
            simp only [gifRungLoop, hap, if_true, hbk, hrec, hrb]
            exact bundle_rec1 beh ap maxSide rest k r (r + 1) ec ec GifMode.palette hfm.symm
              _ (ih (k + 1) (r + 1) ec (some m) hchain' hec)
              (by
                intro b hb
                rw [(ih (k + 1) (r + 1) ec (some m) hchain' hec).head_eq] at hb
                cases rest with
                | nil => simp at hb
                | cons m2 rest2 =>
                  simp only [List.head?_cons] at hb
                  injection hb with hb
                  subst hb
                  rw [hstep]
                  exact adj_of_error_rec _ _ m hrec rfl (hrel m2 rfl))
              (by rw [hstep]; simp)
              (by rw [hstep]; simp [reloadDelta, hrec])
          | some am =>
            simp only [gifRungLoop, hap, if_true, hbk, hrec, hrb]
            exact bundle_term1 beh ap maxSide rest k r ec GifMode.palette hfm.symm
              ec (k + 1) (r + 1) (some am) (some m) rfl
              (by intro _; rw [hstep]; simp)
              (by intro h; cases h)
        · simp only [gifRungLoop, hap, if_true, hbk, hrec, Bool.false_eq_true, if_false]
          exact bundle_term1 beh ap maxSide rest k r ec GifMode.palette hfm.symm
            ec (k + 1) r none (some m) rfl
            (by intro _; rw [hstep]; simp)
            (by intro _; rw [hstep]; simp [reloadDelta, hrec])
      | ret c ne =>
        have hstep : runStep beh k = .ok (gifExitOf c ne) := by simp [runStep, hbk]
        by_cases hc0 : gifExitOf c ne = 0
        · simp only [gifRungLoop, hap, if_true, hbk, hc0, if_pos rfl]
          exact bundle_term1 beh ap maxSide rest k r ec GifMode.palette hfm.symm
            0 (k + 1) r none le rfl
            (fun h => absurd rfl h)
            (by intro _; rw [hstep, hc0]; simp [reloadDelta])
        · have hadjmid : Adj ⟨maxSide, .palette, r⟩ ⟨maxSide, .nopalette, r⟩ (runStep beh k) := by
            rw [hstep]
            exact adj_of_ret _ _ _ hc0 rfl (Or.inr ⟨rfl, rfl, rfl⟩)
          cases hbk2 : beh (k + 1) with
          | err m =>
            have hstep2 : runStep beh (k + 1) = .error m := by simp [runStep, hbk2]
            by_cases hrec2 : recoverableGifError m = true
            · cases hrb : rb r with
              | none =>
                simp only [gifRungLoop, hap, if_true, hbk, hc0, if_neg hc0, hbk2, hrec2, hrb]
                exact bundle_rec2 beh ap maxSide rest k r (r + 1) ec (gifExitOf c ne)
                  hfm hadjmid
                  _ (ih (k + 2) (r + 1) (gifExitOf c ne) (some m) hchain' hc0)
                  (by
                    intro b hb
                    rw [(ih (k + 2) (r + 1) (gifExitOf c ne) (some m) hchain' hc0).head_eq] at hb
                    cases rest with
                    | nil => simp at hb
                    | cons m2 rest2 =>
                      simp only [List.head?_cons] at hb
                      injection hb with hb
                      subst hb
                      rw [hstep2]
                      exact adj_of_error_rec _ _ m hrec2 rfl (hrel m2 rfl))
                  (by rw [hstep2]; simp)
                  (by rw [hstep2]; simp [reloadDelta, hrec2])
              | some am =>
                simp only [gifRungLoop, hap, if_true, hbk, hc0, if_neg hc0, hbk2, hrec2, hrb]
                exact bundle_term2 beh ap maxSide rest k r ec hfm hadjmid
                  (gifExitOf c ne) (k + 2) (r + 1) (some am) (some m) rfl
                  (by intro _; rw [hstep2]; simp)
                  (by intro h; cases h)
            · simp only [gifRungLoop, hap, if_true, hbk, hc0, if_neg hc0, hbk2, hrec2,
                Bool.false_eq_true, if_false]
              exact bundle_term2 beh ap maxSide rest k r ec hfm hadjmid
                (gifExitOf c ne) (k + 2) r none (some m) rfl
                (by intro _; rw [hstep2]; simp)
                (by intro _; rw [hstep2]; simp [reloadDelta, hrec2])
          | ret c2 ne2 =>
            have hstep2 : runStep beh (k + 1) = .ok (gifExitOf c2 ne2) := by
              simp [runStep, hbk2]
            by_cases hc2 : gifExitOf c2 ne2 = 0
            · simp only [gifRungLoop, hap, if_true, hbk, hc0, if_neg hc0, hbk2, hc2, if_pos rfl]
              exact bundle_term2 beh ap maxSide rest k r ec hfm hadjmid
                0 (k + 2) r none le rfl
                (fun h => absurd rfl h)
                (by intro _; rw [hstep2, hc2]; simp [reloadDelta])
            · by_cases h480 : maxSide ≤ 480
              · simp only [gifRungLoop, hap, if_true, hbk, hc0, if_neg hc0, hbk2, hc2,
                  if_neg hc2, h480, if_pos h480]
                exact bundle_term2 beh ap maxSide rest k r ec hfm hadjmid
                  (gifExitOf c2 ne2) (k + 2) r none (some (exitCodeMsg (gifExitOf c2 ne2))) rfl
                  (by intro _; rw [hstep2]; simp [hc2])
                  (by intro _; rw [hstep2]; simp [reloadDelta])
              · simp only [gifRungLoop, hap, if_true, hbk, hc0, if_neg hc0, hbk2, hc2,
                  if_neg hc2, h480, if_neg h480]
                exact bundle_rec2 beh ap maxSide rest k r r ec (gifExitOf c2 ne2)
                  hfm hadjmid
                  _ (ih (k + 2) r (gifExitOf c2 ne2)
                      (some (exitCodeMsg (gifExitOf c2 ne2))) hchain' hc2)
                  (by
                    intro b hb
                    rw [(ih (k + 2) r (gifExitOf c2 ne2)
                        (some (exitCodeMsg (gifExitOf c2 ne2))) hchain' hc2).head_eq] at hb
                    cases rest with
                    | nil => simp at hb
                    | cons m2 rest2 =>
                      simp only [List.head?_cons] at hb
                      injection hb with hb
                      subst hb
                      rw [hstep2]
                      exact adj_of_ret _ _ _ hc2 rfl (Or.inl (hrel m2 rfl)))
                  (by rw [hstep2]; simp [hc2])
                  (by rw [hstep2]; simp [reloadDelta])
    · have hfm : firstMode ap maxSide = GifMode.nopalette := by
        unfold firstMode; rw [if_neg hap]
      rw [Bool.not_eq_true] at hap
      cases hbk : beh k with
      | err m =>
        have hstep : runStep beh k = .error m := by simp [runStep, hbk]
        by_cases hrec : recoverableGifError m = true
        · cases hrb : rb r with
          | none =>
            simp only [gifRungLoop, hap, Bool.false_eq_true, if_false, hbk, hrec, hrb]
            exact bundle_rec1 beh ap maxSide rest k r (r + 1) ec ec GifMode.nopalette hfm.symm
              _ (ih (k + 1) (r + 1) ec (some m) hchain' hec)
              (by
                intro b hb
                rw [(ih (k + 1) (r + 1) ec (some m) hchain' hec).head_eq] at hb
                cases rest with
                | nil => simp at hb
                | cons m2 rest2 =>
                  simp only [List.head?_cons] at hb
                  injection hb with hb
                  subst hb
                  rw [hstep]
                  exact adj_of_error_rec _ _ m hrec rfl (hrel m2 rfl))
              (by rw [hstep]; simp)
              (by rw [hstep]; simp [reloadDelta, hrec])
          | some am =>
            simp only [gifRungLoop, hap, Bool.false_eq_true, if_false, hbk, hrec, hrb]
            exact bundle_term1 beh ap maxSide rest k r ec GifMode.nopalette hfm.symm
              ec (k + 1) (r + 1) (some am) (some m) rfl
              (by intro _; rw [hstep]; simp)
              (by intro h; cases h)
        · simp only [gifRungLoop, hap, Bool.false_eq_true, if_false, hbk, hrec]
          exact bundle_term1 beh ap maxSide rest k r ec GifMode.nopalette hfm.symm
            ec (k + 1) r none (some m) rfl
            (by intro _; rw [hstep]; simp)
            (by intro _; rw [hstep]; simp [reloadDelta, hrec])
      | ret c ne =>
        have hstep : runStep beh k = .ok (gifExitOf c ne) := by simp [runStep, hbk]
        by_cases hc0 : gifExitOf c ne = 0
        · simp only [gifRungLoop, hap, Bool.false_eq_true, if_false, hbk, hc0, if_pos rfl]
          exact bundle_term1 beh ap maxSide rest k r ec GifMode.nopalette hfm.symm
            0 (k + 1) r none le rfl
            (fun h => absurd rfl h)
            (by intro _; rw [hstep, hc0]; simp [reloadDelta])
        · by_cases h480 : maxSide ≤ 480
          · simp only [gifRungLoop, hap, Bool.false_eq_true, if_false, hbk, hc0,
              if_neg hc0, h480, if_pos h480]
            exact bundle_term1 beh ap maxSide rest k r ec GifMode.nopalette hfm.symm
              (gifExitOf c ne) (k + 1) r none (some (exitCodeMsg (gifExitOf c ne))) rfl
              (by intro _; rw [hstep]; simp [hc0])
              (by intro _; rw [hstep]; simp [reloadDelta])
          · simp only [gifRungLoop, hap, Bool.false_eq_true, if_false, hbk, hc0,
              if_neg hc0, h480, if_neg h480]
            exact bundle_rec1 beh ap maxSide rest k r r ec (gifExitOf c ne)
              GifMode.nopalette hfm.symm
              _ (ih (k + 1) r (gifExitOf c ne) (some (exitCodeMsg (gifExitOf c ne)))
                  hchain' hc0)
              (by
                intro b hb
                rw [(ih (k + 1) r (gifExitOf c ne) (some (exitCodeMsg (gifExitOf c ne)))
                    hchain' hc0).head_eq] at hb
                cases rest with
                | nil => simp at hb
                | cons m2 rest2 =>
                  simp only [List.head?_cons] at hb
                  injection hb with hb
                  subst hb
                  rw [hstep]
                  exact adj_of_ret _ _ _ hc0 rfl (Or.inl (hrel m2 rfl)))
              (by rw [hstep]; simp [hc0])
              (by rw [hstep]; simp [reloadDelta])

end DropConvert

namespace DropConvert

theorem gifPhaseCore_adjAt (cands : List Nat) (ap : Bool) (beh : Nat → ExecOutcome)
    (rb : Nat → Option String) (k0 r0 : Nat)
    (hchain : List.Chain' (fun a b => b < a) cands)
    (h360 : ∀ m ∈ cands, 360 < m) :
    AdjAt beh k0 (gifPhaseCore cands ap beh rb k0 r0).trace := by
  have hb := gifRungLoop_bundle beh rb ap cands k0 r0 1 none hchain one_ne_zero
  cases hab : (gifRungLoop beh rb ap cands k0 r0 1 none).aborted with
  | some am =>
    have htr : (gifPhaseCore cands ap beh rb k0 r0).trace =
        (gifRungLoop beh rb ap cands k0 r0 1 none).trace := by
      simp only [gifPhaseCore, hab]
    rw [htr]
    exact hb.adj
  | none =>
    by_cases hexit : (gifRungLoop beh rb ap cands k0 r0 1 none).exitCode = 0
    · have htr : (gifPhaseCore cands ap beh rb k0 r0).trace =
          (gifRungLoop beh rb ap cands k0 r0 1 none).trace := by
        simp only [gifPhaseCore, hab, hexit, if_true]
      rw [htr]
      exact hb.adj
    · have hbound : ∀ a,
          (gifRungLoop beh rb ap cands k0 r0 1 none).trace.getLast? = some a →
          Adj a ⟨360, .singleFrame, (gifRungLoop beh rb ap cands k0 r0 1 none).reloads⟩
            (runStep beh (k0 +
              ((gifRungLoop beh rb ap cands k0 r0 1 none).trace.length - 1))) := by
        intro a hlast
        have hlt : 360 < a.maxSide := h360 a.maxSide (hb.last_mem a hlast)
        have hrl := hb.reloads_last hab a hlast
        have hnot := hb.last_not_ok0 hexit a hlast
        cases hru : runStep beh (k0 +
            ((gifRungLoop beh rb ap cands k0 r0 1 none).trace.length - 1)) with
        | ok cc =>
          have hcc : cc ≠ 0 := by rintro rfl; exact hnot hru
          rw [hru] at hrl
          simp only [reloadDelta, Nat.add_zero] at hrl
          exact adj_of_ret a _ cc hcc (by simpa using hrl) (Or.inl hlt)
        | error m =>
          rw [hru] at hrl
          by_cases hr : recoverableGifError m = true
          · simp only [reloadDelta, hr, if_true] at hrl
            exact adj_of_error_rec a _ m hr (by simpa using hrl) hlt
          · simp only [reloadDelta, hr, Bool.false_eq_true, if_false, Nat.add_zero] at hrl
            exact adj_of_error_nonrec a _ m (by simpa using hr)
              (by simpa using hrl) rfl hlt
      cases hbe : beh (gifRungLoop beh rb ap cands k0 r0 1 none).execs with
      | ret c ne =>
        have htr : (gifPhaseCore cands ap beh rb k0 r0).trace =
            (gifRungLoop beh rb ap cands k0 r0 1 none).trace ++
              [⟨360, .singleFrame, (gifRungLoop beh rb ap cands k0 r0 1 none).reloads⟩] := by
          simp only [gifPhaseCore, hab, if_neg hexit, hbe]
        rw [htr]
        exact adjAt_append_singleton beh k0 _ _ hb.adj hbound
      | err m =>
        have htr : (gifPhaseCore cands ap beh rb k0 r0).trace =
            (gifRungLoop beh rb ap cands k0 r0 1 none).trace ++
              [⟨360, .singleFrame, (gifRungLoop beh rb ap cands k0 r0 1 none).reloads⟩] := by
          simp only [gifPhaseCore, hab, if_neg hexit, hbe]
        rw [htr]
        exact adjAt_append_singleton beh k0 _ _ hb.adj hbound

theorem maxSideCandidates_chain (dm : Option ℚ) :
    List.Chain' (fun a b => b < a) (maxSideCandidates dm) := by
  unfold maxSideCandidates
  split
  · norm_num [List.chain'_cons, List.chain'_singleton]
  · split
    · norm_num [List.chain'_cons, List.chain'_singleton]
    · norm_num [List.chain'_cons, List.chain'_singleton]

theorem maxSideCandidates_mem360 (dm : Option ℚ) :
    ∀ m ∈ maxSideCandidates dm, 360 < m := by
  unfold maxSideCandidates
  split
  · decide
  · split
    · decide
    · decide

/-- Adjacency invariants hold for the executed attempt trace of the GIF phase
of any conversion. -/
theorem gifPhase_adjAt (dm : Option ℚ) (beh : Nat → ExecOutcome)
    (rb : Nat → Option String) :
    AdjAt beh 0 (gifPhase dm beh rb).trace :=
  gifPhaseCore_adjAt (maxSideCandidates dm) (!isLowMemoryDevice dm) beh rb 0 0
    (maxSideCandidates_chain dm) (maxSideCandidates_mem360 dm)

theorem chain_of_adjAt (beh : Nat → ExecOutcome) (k : Nat) (T : List Att)
    (h : AdjAt beh k T) : List.Chain' costDecreases T := by
  rw [List.chain'_iff_get]
  intro i hlt
  have hi1 : i < T.length := by omega
  have hi2 : i + 1 < T.length := by omega
  have hadj := h i (T.get ⟨i, hi1⟩) (T.get ⟨i + 1, hi2⟩)
    (List.get?_eq_get hi1) (List.get?_eq_get hi2)
  cases hru : runStep beh (k + i) with
  | ok cc =>
    rw [hru] at hadj
    cases cc with
    | zero => exact hadj.elim
    | succ n => exact hadj.2
  | error m =>
    rw [hru] at hadj
    simp only [Adj] at hadj
    by_cases hr : recoverableGifError m = true
    · rw [if_pos hr] at hadj
      exact Or.inl hadj.2
    · rw [if_neg hr] at hadj
      exact Or.inl hadj.2.2

theorem weightAtt_congr (a b : Att) (h : attConfig a = attConfig b) :
    weightAtt a = weightAtt b := by
  unfold attConfig at h
  obtain ⟨h1, h2⟩ := Prod.mk.injEq _ _ _ _ ▸ h
  unfold weightAtt
  rw [h1, h2]

theorem weightAtt_lt_of_costDecreases (a b : Att) (h : costDecreases a b) :
    weightAtt b < weightAtt a := by
  unfold weightAtt
  rcases h with h | ⟨heq, hpal, hnp⟩
  · have : (if b.mode = GifMode.palette then 1 else 0) ≤ 1 := by split <;> omega
    have : (0:Nat) ≤ (if a.mode = GifMode.palette then 1 else 0) := by omega
    split <;> split <;> omega
  · rw [heq, hpal, hnp]
    simp

theorem pairwise_ne_of_chain (T : List Att) (h : List.Chain' costDecreases T) :
    List.Pairwise (fun a b => attConfig a ≠ attConfig b) T := by
  have hw : List.Chain' (fun x y : Nat => x > y) (T.map weightAtt) := by
    rw [List.chain'_map]
    exact h.imp (fun a b hab => weightAtt_lt_of_costDecreases a b hab)
  have hpw : List.Pairwise (fun x y : Nat => x > y) (T.map weightAtt) :=
    List.chain'_iff_pairwise.mp hw
  have hpw2 : List.Pairwise (fun a b : Att => weightAtt a > weightAtt b) T :=
    List.pairwise_map.mp hpw
  exact hpw2.imp (fun hab heq => absurd (weightAtt_congr _ _ heq) (by omega))

end DropConvert

namespace DropConvert

theorem maxSideCandidates_cases (dm : Option ℚ) :
    (isLowMemoryDevice dm = true ∧
      (maxSideCandidates dm = [480] ∨ maxSideCandidates dm = [720, 480])) ∨
    (isLowMemoryDevice dm = false ∧ maxSideCandidates dm = [1280, 960, 720, 480]) := by
  by_cases h2 : isVeryLowMemoryDevice dm = true
  · have hlow : isLowMemoryDevice dm = true := by
      cases dm with
      | none => simp [isVeryLowMemoryDevice] at h2
      | some d =>
        simp only [isVeryLowMemoryDevice, Bool.and_eq_true, decide_eq_true_eq] at h2
        simp only [isLowMemoryDevice, Bool.and_eq_true, decide_eq_true_eq]
        exact ⟨h2.1, le_trans h2.2 (by norm_num)⟩
    refine Or.inl ⟨hlow, Or.inl ?_⟩
    unfold maxSideCandidates
    rw [if_pos h2]
  · by_cases h4 : isLowMemoryDevice dm = true
    · refine Or.inl ⟨h4, Or.inr ?_⟩
      unfold maxSideCandidates
      rw [if_neg h2, if_pos h4]
    · refine Or.inr ⟨by simpa using h4, ?_⟩
      unfold maxSideCandidates
      rw [if_neg h2, if_neg h4]

theorem gifPlan_allFail (dm : Option ℚ) :
    (gifPhase dm behAllFail rbAllOk).trace.map attConfig = gifPlan dm := by
  rcases maxSideCandidates_cases dm with ⟨hlow, hc | hc⟩ | ⟨hlow, hc⟩
  · unfold gifPhase gifPlan
    rw [hc, hlow]
    decide
  · unfold gifPhase gifPlan
    rw [hc, hlow]
    decide
  · unfold gifPhase gifPlan
    rw [hc, hlow]
    decide

theorem gifPlan_verylow (d : ℚ) (hd0 : 0 < d) (hd2 : d ≤ 2) :
    gifPlan (some d) = [(480, GifMode.nopalette), (360, GifMode.singleFrame)] := by
  have hv : isVeryLowMemoryDevice (some d) = true := by
    simp only [isVeryLowMemoryDevice, Bool.and_eq_true, decide_eq_true_eq]
    exact ⟨hd0, hd2⟩
  have hlow : isLowMemoryDevice (some d) = true := by
    simp only [isLowMemoryDevice, Bool.and_eq_true, decide_eq_true_eq]
    exact ⟨hd0, le_trans hd2 (by norm_num)⟩
  unfold gifPlan maxSideCandidates
  rw [if_pos hv, hlow]
  decide

theorem gifPlan_low (d : ℚ) (hd0 : 0 < d) (hd2 : ¬d ≤ 2) (hd4 : d ≤ 4) :
    gifPlan (some d) = [(720, GifMode.nopalette), (480, GifMode.nopalette),
      (360, GifMode.singleFrame)] := by
  have hv : ¬isVeryLowMemoryDevice (some d) = true := by
    simp only [isVeryLowMemoryDevice, Bool.and_eq_true, decide_eq_true_eq]
    intro h
    exact hd2 h.2
  have hlow : isLowMemoryDevice (some d) = true := by
    simp only [isLowMemoryDevice, Bool.and_eq_true, decide_eq_true_eq]
    exact ⟨hd0, hd4⟩
  unfold gifPlan maxSideCandidates
  rw [if_neg hv, if_pos hlow, hlow]
  decide

/-- Claim C3: in every run of the GIF fallback ladder, the executed attempt
sequence has non-increasing resource cost (the resolution ceiling never rises,
and at equal resolution the palette attempt precedes the no-palette attempt);
an attempt is followed by another only when it did not succeed (exit code 0
or non-empty output), so the ladder halts at the first success; with a
behaviour in which every attempt fails, the executed sequence is exactly the
plan determined by the device-memory hint alone; and a constrained device
(`deviceMemory` positive and at most 4, or at most 2) gets strictly fewer
and smaller attempts. -/
theorem C3_gif_ladder_plan (dm : Option ℚ) (beh : Nat → ExecOutcome)
    (rb : Nat → Option String) :
    List.Chain' costDecreases (gifPhase dm beh rb).trace ∧
    (∀ i a b, (gifPhase dm beh rb).trace.get? i = some a →
      (gifPhase dm beh rb).trace.get? (i + 1) = some b →
      runStep beh i ≠ Except.ok 0) ∧
    ((gifPhase dm behAllFail rbAllOk).trace.map attConfig = gifPlan dm) ∧
    (∀ d : ℚ, 0 < d → d ≤ 4 →
      (gifPlan (some d)).length < (gifPlan none).length ∧
      ∀ p ∈ gifPlan (some d), p.1 ≤ 720) ∧
    (∀ d : ℚ, 0 < d → d ≤ 2 →
      (gifPlan (some d)).length < (gifPlan (some (4 : ℚ))).length ∧
      ∀ p ∈ gifPlan (some d), p.1 ≤ 480) := by
  refine ⟨chain_of_adjAt beh 0 _ (gifPhase_adjAt dm beh rb), ?_, gifPlan_allFail dm,
    ?_, ?_⟩
  · intro i a b h1 h2 hok
    have hadj := gifPhase_adjAt dm beh rb i a b h1 h2
    rw [Nat.zero_add, hok] at hadj
    exact hadj
  · intro d hd0 hd4
    by_cases hd2 : d ≤ 2
    · rw [gifPlan_verylow d hd0 hd2]
      exact ⟨by decide, by decide⟩
    · rw [gifPlan_low d hd0 hd2 hd4]
      exact ⟨by decide, by decide⟩
  · intro d hd0 hd2
    rw [gifPlan_verylow d hd0 hd2]
    exact ⟨by decide, by decide⟩

/-- Witness for C3: the hint 4 (a constrained device) gets a strictly
shorter plan than the unconstrained plan. -/
theorem C3_gif_ladder_plan_witness :
    (gifPlan (some (4 : ℚ))).length < (gifPlan none).length :=
  ((C3_gif_ladder_plan none behAllFail rbAllOk).2.2.2.1 4 (by norm_num) (by norm_num)).1

/-- Claim C4: during the GIF fallback ladder, an attempt that fails with a
recoverable error kind (watchdog stuck/terminated suffix, engine not-loaded,
or wasm-abort signature) is followed — when any attempt follows — by an
attempt started after exactly one more reload and at a strictly smaller
resolution ceiling (never a re-run of the same configuration); a
non-recoverable thrown error is followed only by the final single-frame
attempt, without reloading; a plain non-zero exit advances without
reloading; and no attempt configuration is ever executed twice. -/
theorem C4_gif_ladder_recovery (dm : Option ℚ) (beh : Nat → ExecOutcome)
    (rb : Nat → Option String) :
    (∀ i a b m, (gifPhase dm beh rb).trace.get? i = some a →
      (gifPhase dm beh rb).trace.get? (i + 1) = some b →
      beh i = .err m → recoverableGifError m = true →
      b.reloadsBefore = a.reloadsBefore + 1 ∧ b.maxSide < a.maxSide) ∧
    (∀ i a b m, (gifPhase dm beh rb).trace.get? i = some a →
      (gifPhase dm beh rb).trace.get? (i + 1) = some b →
      beh i = .err m → recoverableGifError m = false →
      b.reloadsBefore = a.reloadsBefore ∧ b.mode = GifMode.singleFrame) ∧
    (∀ i a b c ne, (gifPhase dm beh rb).trace.get? i = some a →
      (gifPhase dm beh rb).trace.get? (i + 1) = some b →
      beh i = .ret c ne → gifExitOf c ne ≠ 0 →
      b.reloadsBefore = a.reloadsBefore) ∧
    List.Pairwise (fun a b => attConfig a ≠ attConfig b) (gifPhase dm beh rb).trace := by
  have hadj := gifPhase_adjAt dm beh rb
  refine ⟨?_, ?_, ?_, pairwise_ne_of_chain _ (chain_of_adjAt beh 0 _ hadj)⟩
  · intro i a b m h1 h2 hbm hr
    have hthis := hadj i a b h1 h2
    rw [Nat.zero_add, show runStep beh i = .error m from by simp [runStep, hbm]] at hthis
    simp only [Adj] at hthis
    rw [if_pos hr] at hthis
    exact hthis
  · intro i a b m h1 h2 hbm hr
    have hthis := hadj i a b h1 h2
    rw [Nat.zero_add, show runStep beh i = .error m from by simp [runStep, hbm]] at hthis
    simp only [Adj] at hthis
    rw [if_neg (by simp [hr])] at hthis
    exact ⟨hthis.1, hthis.2.1⟩
  · intro i a b c ne h1 h2 hbm hcc
    have hthis := hadj i a b h1 h2
    rw [Nat.zero_add,
      show runStep beh i = .ok (gifExitOf c ne) from by simp [runStep, hbm]] at hthis
    obtain ⟨n, hn⟩ := Nat.exists_eq_succ_of_ne_zero hcc
    rw [hn] at hthis
    exact hthis.1

/-- Witness for C4: with a recoverable first failure, the second executed
attempt runs after one reload at a strictly smaller ceiling. -/
theorem C4_gif_ladder_recovery_witness :
    (gifPhase none behW rbAllOk).trace.get? 0 = some ⟨1280, GifMode.palette, 0⟩ ∧
    (gifPhase none behW rbAllOk).trace.get? 1 = some ⟨960, GifMode.palette, 1⟩ ∧
    ((⟨960, GifMode.palette, 1⟩ : Att).reloadsBefore
        = (⟨1280, GifMode.palette, 0⟩ : Att).reloadsBefore + 1 ∧
      (⟨960, GifMode.palette, 1⟩ : Att).maxSide
        < (⟨1280, GifMode.palette, 0⟩ : Att).maxSide) :=
  ⟨rfl, rfl,
    (C4_gif_ladder_recovery none behW rbAllOk).1 0 ⟨1280, GifMode.palette, 0⟩
      ⟨960, GifMode.palette, 1⟩ "Aborted()" rfl rfl rfl (by decide)⟩

end DropConvert

namespace DropConvert

/-- Counterexample for C1: with a behaviour where the MP4 conversion succeeds
(exit code 0, non-empty output) but every GIF attempt fails with a plain exit
code 1, `convertImage` throws the GIF failure error — although the MP4 result
had been produced — and the queue marks the job `failed`, contradicting the
claim that a job with at least one produced format ends `completed`. -/
theorem C1_partial_success_counterexample :
    (convertImageModel none behC1 rbAllOk).mp4Done = true ∧
    (convertImageModel none behC1 rbAllOk).result =
      .error "FFmpeg failed or timed out during GIF conversion (exit code 1)." ∧
    processItemFinal false false false (.ok true)
      (convertImageModel none behC1 rbAllOk).result = QStatus.failed :=
  ⟨rfl, rfl, rfl⟩

/-- Claim C1 (amended): a job processed without pause is marked `completed`
exactly when `convertImage` returns; every returned result contains the MP4
result, and contains the GIF result exactly when the GIF ladder succeeded
(the only returns without a GIF result are cancellation partial returns);
a plain GIF failure after a successful MP4 conversion makes `convertImage`
throw, so the job is marked `failed` and the MP4 result is not surfaced. -/
theorem C1_completed_requires_all_formats (dm : Option ℚ) (beh : Nat → ExecOutcome)
    (rb : Nat → Option String) :
    (processItemFinal false false false (.ok true) (convertImageModel dm beh rb).result
        = QStatus.completed ↔ ∃ pr, (convertImageModel dm beh rb).result = .ok pr) ∧
    (∀ pr, (convertImageModel dm beh rb).result = .ok pr →
      pr.1 = true ∧
        (pr.2 = true ↔ ∃ g, (convertImageModel dm beh rb).gif = some g ∧
          g.result = GifResult.success)) := by
  cases hm4 : (mp4Phase beh rb).result with
  | error msg =>
    have hres : (convertImageModel dm beh rb).result = .error msg := by
      simp [convertImageModel, hm4, convertCatch]
    rw [hres]
    constructor
    · simp [processItemFinal]
    · intro pr hpr
      exact Except.noConfusion hpr
  | ok ne =>
    cases ne with
    | false =>
      have hres : (convertImageModel dm beh rb).result = .error mp4EmptyMsg := by
        simp [convertImageModel, hm4, convertCatch]
      rw [hres]
      constructor
      · simp [processItemFinal]
      · intro pr hpr
        exact Except.noConfusion hpr
    | true =>
      set G := gifPhaseCore (maxSideCandidates dm) (!isLowMemoryDevice dm) beh rb
        (mp4Phase beh rb).execs (mp4Phase beh rb).reloads with hG
      have hgif : (convertImageModel dm beh rb).gif = some G := by
        cases hg : G.result <;> simp [convertImageModel, hm4, ← hG, hg]
      cases hg : G.result with
      | success =>
        have hres : (convertImageModel dm beh rb).result = .ok (true, true) := by
          simp [convertImageModel, hm4, ← hG, hg]
        rw [hres]
        constructor
        · simp [processItemFinal]
        · intro pr hpr
          obtain rfl : (true, true) = pr := by injection hpr
          refine ⟨rfl, ?_, fun _ => rfl⟩
          intro _
          exact ⟨G, hgif, hg⟩
      | failed c =>
        by_cases hcc : strHasSeg (gifFailMsg c G.lastErr) "cancelled by user" = true
        · have hres : (convertImageModel dm beh rb).result = .ok (true, false) := by
            simp [convertImageModel, hm4, ← hG, hg, convertCatch, hcc]
          rw [hres]
          constructor
          · simp [processItemFinal]
          · intro pr hpr
            obtain rfl : (true, false) = pr := by injection hpr
            refine ⟨rfl, ?_, ?_⟩
            · intro h
              exact absurd h (by simp)
            · rintro ⟨g, hgg, hgs⟩
              rw [hgif] at hgg
              obtain rfl : G = g := by injection hgg
              rw [hg] at hgs
              exact GifResult.noConfusion hgs
        · have hres : (convertImageModel dm beh rb).result =
              .error (gifFailMsg c G.lastErr) := by
            simp [convertImageModel, hm4, ← hG, hg, convertCatch, hcc]
          rw [hres]
          constructor
          · simp [processItemFinal]
          · intro pr hpr
            exact Except.noConfusion hpr
      | aborted am =>
        by_cases hcc : strHasSeg am "cancelled by user" = true
        · have hres : (convertImageModel dm beh rb).result = .ok (true, false) := by
            simp [convertImageModel, hm4, ← hG, hg, convertCatch, hcc]
          rw [hres]
          constructor
          · simp [processItemFinal]
          · intro pr hpr
            obtain rfl : (true, false) = pr := by injection hpr
            refine ⟨rfl, ?_, ?_⟩
            · intro h
              exact absurd h (by simp)
            · rintro ⟨g, hgg, hgs⟩
              rw [hgif] at hgg
              obtain rfl : G = g := by injection hgg
              rw [hg] at hgs
              exact GifResult.noConfusion hgs
        · have hres : (convertImageModel dm beh rb).result = .error am := by
            simp [convertImageModel, hm4, ← hG, hg, convertCatch, hcc]
          rw [hres]
          constructor
          · simp [processItemFinal]
          · intro pr hpr
            exact Except.noConfusion hpr

/-- Witness for C1 (amended): a run in which every exec call succeeds with a
non-empty output returns both formats and the job completes. -/
theorem C1_completed_requires_all_formats_witness :
    processItemFinal false false false (.ok true)
      (convertImageModel none (fun _ => .ret 0 true) rbAllOk).result
        = QStatus.completed :=
  (C1_completed_requires_all_formats none (fun _ => .ret 0 true) rbAllOk).1.mpr
    ⟨(true, true), rfl⟩

end DropConvert
